import Mathlib

/-!
# Verification of the `webmercator_tiles` crate

Shallow embedding of the four public functions of `src/lib.rs`:

* `lonlat2tile` and `tile2lonlat` compute with `f64`.  They are embedded
  here over the exact reals `ℝ`: every `f64` arithmetic operation and
  every `f64` math-library call (`to_radians`, `tan`, `cos`, `ln`,
  `powf`, `sinh`, `atan`, `to_degrees`) is rendered by the corresponding
  exact real operation.  This idealization drops rounding and the
  special values NaN/±∞; claims whose truth depends on bit-level `f64`
  rounding are therefore out of scope of this embedding and are settled
  as such, while claims whose truth is robust to rounding (all margins
  checked to exceed any possible accumulated `f64` error by many orders
  of magnitude, or the concrete computations being exact in `f64`) are
  settled against it.
* `zoom_in` and `zoom_out` compute with `u32`.  They are embedded over
  `ℕ` with explicit reduction `% 2 ^ 32`, i.e. the wrap-around overflow
  semantics of release-mode Rust.
* Rust's `as u32` conversion from `f64` truncates toward zero and
  saturates: values below `0` (and NaN) give `0`, values of `u32::MAX`
  or above (and `+∞`) give `u32::MAX`.  On the reals (no NaN/∞) this is
  `satCastU32` below: `Nat.floor` is `0` on negative input and the
  result is clamped to `u32::MAX`.
-/

open Real

/-- Number of values of `u32`; tile coordinates live in `[0, u32size)`. -/
def u32size : ℕ := 4294967296

/-- Rust `as u32` applied to a finite `f64` value, on the real model:
truncation toward zero saturated to the range `[0, u32size - 1]`.
(`Nat.floor` already sends every negative real to `0`.) -/
noncomputable def satCastU32 (v : ℝ) : ℕ :=
  min ⌊v⌋₊ (u32size - 1)

/-- Function `lonlat2tile` from `src/lib.rs`:
`let lat_rad = lat.to_radians();`
`let z = 2f64.powf(zoom as f64);`
`let x = ((lon + 180f64) / 360f64 * z) as u32;`
`let y = ((1f64 - (lat_rad.tan() + (1f64 / lat_rad.cos())).ln() / PI) / 2f64 * z) as u32;` -/
noncomputable def lonlat2tile (lon lat : ℝ) (zoom : ℕ) : ℕ × ℕ :=
  let lat_rad := lat * (π / 180)
  let z := (2 : ℝ) ^ zoom
  let x := satCastU32 ((lon + 180) / 360 * z)
  let y := satCastU32 ((1 - Real.log (Real.tan lat_rad + 1 / Real.cos lat_rad) / π) / 2 * z)
  (x, y)

/-- Function `tile2lonlat` from `src/lib.rs`:
`let z = 2f64.powf(zoom as f64);`
`let lon = x as f64 / z * 360f64 - 180f64;`
`let lat = (PI * (1f64 - 2f64 * y as f64 / z)).sinh().atan().to_degrees();` -/
noncomputable def tile2lonlat (x y : ℕ) (zoom : ℕ) : ℝ × ℝ :=
  let z := (2 : ℝ) ^ zoom
  let lon := (x : ℝ) / z * 360 - 180
  let lat := Real.arctan (Real.sinh (π * (1 - 2 * (y : ℝ) / z))) * (180 / π)
  (lon, lat)

/-- Function `zoom_in` from `src/lib.rs` (u32 arithmetic wraps mod `2^32`):
`let x2 = 2 * x; let y2 = 2 * y;`
`((x2, y2), (x2 + 1, y2), (x2, y2 + 1), (x2 + 1, y2 + 1))` -/
def zoom_in (x y : ℕ) : (ℕ × ℕ) × (ℕ × ℕ) × (ℕ × ℕ) × (ℕ × ℕ) :=
  let x2 := 2 * x % u32size
  let y2 := 2 * y % u32size
  ((x2, y2), ((x2 + 1) % u32size, y2), (x2, (y2 + 1) % u32size),
    ((x2 + 1) % u32size, (y2 + 1) % u32size))

/-- Function `zoom_out` from `src/lib.rs`: `(x / 2, y / 2)` in `u32` (floor division,
never overflows). -/
def zoom_out (x y : ℕ) : ℕ × ℕ :=
  (x / 2, y / 2)

/-- Claim C3 words the integer conversion as plain truncation toward zero
(no saturation at the top of the `u32` range).  Formalised from the spec's
words, to be compared with the source's saturating conversion. -/
noncomputable def truncTowardZero (v : ℝ) : ℕ := ⌊v⌋₊

/-! ## Helper lemmas -/

theorem satCastU32_lt : ∀ v : ℝ, satCastU32 v < u32size := by
  intro v
  have h : satCastU32 v ≤ u32size - 1 := min_le_right _ _
  have : u32size - 1 < u32size := by unfold u32size; omega
  exact lt_of_le_of_lt h this

theorem satCastU32_mono {u v : ℝ} (h : u ≤ v) : satCastU32 u ≤ satCastU32 v :=
  min_le_min (Nat.floor_le_floor h) le_rfl

theorem satCastU32_eq_zero {v : ℝ} (h : v < 1) : satCastU32 v = 0 := by
  unfold satCastU32
  rw [Nat.floor_eq_zero.mpr h]
  exact Nat.zero_min _

/-- Below `2^31` the `u32` doublings in `zoom_in` do not wrap. -/
theorem zoom_in_eq_of_lt (x y : ℕ) (hx : x < 2147483648) (hy : y < 2147483648) :
    zoom_in x y =
      ((2 * x, 2 * y), (2 * x + 1, 2 * y), (2 * x, 2 * y + 1), (2 * x + 1, 2 * y + 1)) := by
  have h1 : 2 * x % 4294967296 = 2 * x := Nat.mod_eq_of_lt (by omega)
  have h2 : 2 * y % 4294967296 = 2 * y := Nat.mod_eq_of_lt (by omega)
  have h3 : (2 * x + 1) % 4294967296 = 2 * x + 1 := Nat.mod_eq_of_lt (by omega)
  have h4 : (2 * y + 1) % 4294967296 = 2 * y + 1 := Nat.mod_eq_of_lt (by omega)
  simp only [zoom_in, u32size, h1, h2, h3, h4]

/-! ## Claim C6: merge is floor division by two -/

/-- Claim C6: for every tile coordinate, `merge(x, y) = (x div 2, y div 2)`
with integer floor division, total on every input; in particular
`merge(5, 7) = (2, 3)` and `merge(0, 0) = (0, 0)`. -/
theorem claim6_merge_floor_div :
    (∀ x y : ℕ, zoom_out x y = (x / 2, y / 2)) ∧
      zoom_out 5 7 = (2, 3) ∧ zoom_out 0 0 = (0, 0) :=
  ⟨fun _ _ => rfl, rfl, rfl⟩

/-! ## Claim C4: split returns the four children in fixed order -/

/-- Claim C4 as stated is false: at the `u32` tile coordinate `x = 2^31`
(with `y = 0`) the doubling `2 * x` wraps around mod `2^32`, so `split`
does not return `(2x, 2y)` etc. but the wrapped values. -/
theorem claim4_counterexample :
    2147483648 < u32size ∧
      zoom_in 2147483648 0 ≠
        ((2 * 2147483648, 2 * 0), (2 * 2147483648 + 1, 2 * 0),
          (2 * 2147483648, 2 * 0 + 1), (2 * 2147483648 + 1, 2 * 0 + 1)) := by
  constructor
  · unfold u32size; omega
  · intro h
    have h1 := congrArg (fun t => t.1.1) h
    simp only [zoom_in, u32size] at h1
    omega

/-- Claim C4 amended: for tile coordinates below `2^31` (so that the
doubled coordinates still fit in `u32` and no wrap-around occurs),
`split(x, y)` is exactly the ordered 4-tuple
`((2x, 2y), (2x+1, 2y), (2x, 2y+1), (2x+1, 2y+1))`; for larger
coordinates each component is reduced mod `2^32`. -/
theorem claim4_amended (x y : ℕ) (hx : x < 2147483648) (hy : y < 2147483648) :
    zoom_in x y =
      ((2 * x, 2 * y), (2 * x + 1, 2 * y), (2 * x, 2 * y + 1), (2 * x + 1, 2 * y + 1)) :=
  zoom_in_eq_of_lt x y hx hy

/-- Witness for the amended claim C4 at the spec's concrete scenario:
`split(1, 1) = ((2,2), (3,2), (2,3), (3,3))`. -/
theorem claim4_witness :
    zoom_in 1 1 = ((2, 2), (3, 2), (2, 3), (3, 3)) := by
  have h := claim4_amended 1 1 (by omega) (by omega)
  simpa using h

/-! ## Claim C5: merge of any child of split gives the tile back -/

/-- Claim C5 as stated is false: at `x = 2^31`, `split` wraps `2 * x` to
`0`, and merging the north-west child gives `(0, 0)`, not `(2^31, 0)`. -/
theorem claim5_counterexample :
    zoom_out (zoom_in 2147483648 0).1.1 (zoom_in 2147483648 0).1.2 ≠ (2147483648, 0) := by
  intro h
  have h1 := congrArg (fun t => t.1) h
  simp only [zoom_in, zoom_out, u32size] at h1
  omega

/-- Claim C5 amended: for tile coordinates below `2^31` (no wrap-around in
`split`), merging any of the four children returned by `split(x, y)`
yields `(x, y)` again. -/
theorem claim5_amended (x y : ℕ) (hx : x < 2147483648) (hy : y < 2147483648) :
    zoom_out (zoom_in x y).1.1 (zoom_in x y).1.2 = (x, y) ∧
      zoom_out (zoom_in x y).2.1.1 (zoom_in x y).2.1.2 = (x, y) ∧
      zoom_out (zoom_in x y).2.2.1.1 (zoom_in x y).2.2.1.2 = (x, y) ∧
      zoom_out (zoom_in x y).2.2.2.1 (zoom_in x y).2.2.2.2 = (x, y) := by
  have h := zoom_in_eq_of_lt x y hx hy
  rw [h]
  unfold zoom_out
  refine ⟨?_, ?_, ?_, ?_⟩ <;> simp only [Prod.mk.injEq] <;> omega

/-- Witness for the amended claim C5 at the tile `(1, 1)`. -/
theorem claim5_witness :
    zoom_out (zoom_in 1 1).1.1 (zoom_in 1 1).1.2 = (1, 1) ∧
      zoom_out (zoom_in 1 1).2.1.1 (zoom_in 1 1).2.1.2 = (1, 1) ∧
      zoom_out (zoom_in 1 1).2.2.1.1 (zoom_in 1 1).2.2.1.2 = (1, 1) ∧
      zoom_out (zoom_in 1 1).2.2.2.1 (zoom_in 1 1).2.2.2.2 = (1, 1) :=
  claim5_amended 1 1 (by omega) (by omega)

/-! ## Claim C9: totality of the four operations -/

/-- Claim C9: all four operations are total.  In the embedding every
function returns a value on every input of its declared type (the `f64`
pipeline never signals an error and the wrap-around `u32` arithmetic of
release-mode Rust never panics), and in addition the integer results
always lie in the `u32` range. -/
theorem claim9_totality :
    (∀ (lon lat : ℝ) (zoom : ℕ),
        (lonlat2tile lon lat zoom).1 < u32size ∧ (lonlat2tile lon lat zoom).2 < u32size) ∧
      (∀ x y zoom : ℕ, ∃ p : ℝ × ℝ, tile2lonlat x y zoom = p) ∧
      (∀ x y : ℕ,
        (zoom_in x y).1.1 < u32size ∧ (zoom_in x y).1.2 < u32size ∧
        (zoom_in x y).2.1.1 < u32size ∧ (zoom_in x y).2.1.2 < u32size ∧
        (zoom_in x y).2.2.1.1 < u32size ∧ (zoom_in x y).2.2.1.2 < u32size ∧
        (zoom_in x y).2.2.2.1 < u32size ∧ (zoom_in x y).2.2.2.2 < u32size) ∧
      (∀ x y : ℕ, (zoom_out x y).1 ≤ x ∧ (zoom_out x y).2 ≤ y) := by
  refine ⟨fun lon lat zoom => ⟨satCastU32_lt _, satCastU32_lt _⟩,
    fun x y zoom => ⟨_, rfl⟩, fun x y => ?_, fun x y => ⟨Nat.div_le_self _ _, Nat.div_le_self _ _⟩⟩
  have hpos : 0 < u32size := by unfold u32size; omega
  simp only [zoom_in]
  exact ⟨Nat.mod_lt _ hpos, Nat.mod_lt _ hpos, Nat.mod_lt _ hpos, Nat.mod_lt _ hpos,
    Nat.mod_lt _ hpos, Nat.mod_lt _ hpos, Nat.mod_lt _ hpos, Nat.mod_lt _ hpos⟩

/-! ## Claim C3: the forward formulas and the integer conversion -/

/-- Claim C3 as stated is false: the `f64`-to-`u32` conversion is not plain
truncation toward zero.  At longitude `360 * 2^32 - 180` and zoom `0` the
x-formula evaluates exactly to `2^32`; truncation toward zero gives
`2^32`, but the code's saturating cast gives `u32::MAX = 2^32 - 1`.
(Every `f64` step of this computation is exact, so the real model agrees
with the `f64` code here.) -/
theorem claim3_counterexample :
    lonlat2tile 1546188226380 0 0 ≠
      (truncTowardZero (((1546188226380 : ℝ) + 180) / 360 * (2 : ℝ) ^ (0 : ℕ)),
        truncTowardZero ((1 - Real.log (Real.tan ((0 : ℝ) * (π / 180)) +
          1 / Real.cos ((0 : ℝ) * (π / 180))) / π) / 2 * (2 : ℝ) ^ (0 : ℕ))) := by
  intro h
  have h1 := congrArg (fun t => t.1) h
  have hval : ((1546188226380 : ℝ) + 180) / 360 * (2 : ℝ) ^ (0 : ℕ) = 4294967296 := by
    norm_num
  simp only [lonlat2tile, truncTowardZero, satCastU32, hval, u32size] at h1
  rw [Nat.floor_ofNat, min_eq_right (by omega : (4294967296 : ℕ) - 1 ≤ 4294967296)] at h1
  norm_num at h1

/-- Claim C3 amended: for every longitude, latitude and zoom,
`geographic-to-tile` computes `x` from `(lon + 180) / 360 * 2^zoom` and
`y` from `(1 - ln(tan lat_rad + 1 / cos lat_rad) / pi) / 2 * 2^zoom`
(`lat_rad` the latitude in radians), each converted to `u32` by
truncation toward zero SATURATED to the `u32` range (negative values
give `0`, values at or above `2^32` give `2^32 - 1`). -/
theorem claim3_amended (lon lat : ℝ) (zoom : ℕ) :
    lonlat2tile lon lat zoom =
      (satCastU32 ((lon + 180) / 360 * (2 : ℝ) ^ zoom),
        satCastU32 ((1 - Real.log (Real.tan (lat * (π / 180)) +
          1 / Real.cos (lat * (π / 180))) / π) / 2 * (2 : ℝ) ^ zoom)) :=
  rfl

/-! ## Claim C8: tile indices do not decrease when zoom increases -/

/-- Claim C8: for a fixed longitude in `[-180, 180]` and latitude in
`[-85.0511, 85.0511]`, increasing the zoom level by one does not decrease
either component of `geographic-to-tile`. -/
theorem claim8_zoom_monotone (lon lat : ℝ) (zoom : ℕ)
    (h1 : -180 ≤ lon) (h2 : lon ≤ 180)
    (h3 : -85.0511 ≤ lat) (h4 : lat ≤ 85.0511) :
    (lonlat2tile lon lat zoom).1 ≤ (lonlat2tile lon lat (zoom + 1)).1 ∧
      (lonlat2tile lon lat zoom).2 ≤ (lonlat2tile lon lat (zoom + 1)).2 := by
  have hz : (0 : ℝ) < (2 : ℝ) ^ zoom := by positivity
  constructor
  · have key : ∀ n : ℕ, (lonlat2tile lon lat n).1 =
        satCastU32 ((lon + 180) / 360 * (2 : ℝ) ^ n) := fun n => rfl
    rw [key zoom, key (zoom + 1)]
    apply satCastU32_mono
    have ht : (0 : ℝ) ≤ (lon + 180) / 360 := by linarith
    rw [pow_succ]
    nlinarith
  · have key : ∀ n : ℕ, (lonlat2tile lon lat n).2 =
        satCastU32 ((1 - Real.log (Real.tan (lat * (π / 180)) +
          1 / Real.cos (lat * (π / 180))) / π) / 2 * (2 : ℝ) ^ n) := fun n => rfl
    rw [key zoom, key (zoom + 1)]
    rcases le_or_lt 0 ((1 - Real.log (Real.tan (lat * (π / 180)) +
        1 / Real.cos (lat * (π / 180))) / π) / 2) with hpos | hneg
    · apply satCastU32_mono
      rw [pow_succ]
      nlinarith
    · have hz1 : (0 : ℝ) < (2 : ℝ) ^ (zoom + 1) := by positivity
      rw [satCastU32_eq_zero (by nlinarith), satCastU32_eq_zero (by nlinarith)]

/-- Witness for claim C8 at longitude 0, latitude 0, zoom 0. -/
theorem claim8_witness :
    (lonlat2tile 0 0 0).1 ≤ (lonlat2tile 0 0 1).1 ∧
      (lonlat2tile 0 0 0).2 ≤ (lonlat2tile 0 0 1).2 :=
  claim8_zoom_monotone 0 0 0 (by norm_num) (by norm_num) (by norm_num) (by norm_num)

/-! ## Claim C7: zoom 0 maps every valid coordinate to tile (0, 0)

The y-component needs a sharp transcendental bound: at the southern edge
`lat = -85.0511` the quantity `ln(tan lat_rad + sec lat_rad)` is only
about `5.8e-6` above `-pi` (the Web-Mercator latitude limit is
`85.05112878...`), so we need `tan θ + sec θ > exp (-π)` on the whole
valid range with that margin.  The numeric groundwork: a lower bound on
`exp π` via `exp 1` and a Taylor partial sum, and an upper bound on
`cos (π * 49489/1800000)` (which equals `sin` of the radian form of
`85.0511°`) via two half-angle steps and the quartic `sin`/`cos` Taylor
bounds. -/

theorem exp_three_lb : (20.0855369 : ℝ) ≤ Real.exp 3 := by
  have h := Real.exp_one_gt_d9
  have h3 : Real.exp 3 = Real.exp 1 * Real.exp 1 * Real.exp 1 := by
    rw [← Real.exp_add, ← Real.exp_add]; norm_num
  rw [h3]
  nlinarith [Real.exp_pos 1]

theorem exp_small_lb : (1.1521064 : ℝ) ≤ Real.exp 0.141592 := by
  have h := Real.exp_bound (x := 0.141592) (by rw [abs_of_nonneg] <;> norm_num) (n := 6) (by norm_num)
  have hs : ∑ i in Finset.range 6, (0.141592 : ℝ) ^ i / (Nat.factorial i) =
      1 + 0.141592 + 0.141592 ^ 2 / 2 + 0.141592 ^ 3 / 6 + 0.141592 ^ 4 / 24 +
        0.141592 ^ 5 / 120 := by
    simp [Finset.sum_range_succ, Nat.factorial]
  rw [hs] at h
  rw [abs_of_nonneg (by norm_num : (0:ℝ) ≤ 0.141592)] at h
  have h2 := abs_sub_le_iff.mp h
  have h3 := h2.2
  norm_num [Nat.factorial] at h3 ⊢
  linarith

theorem exp_pi_lb : (23.140675 : ℝ) ≤ Real.exp π := by
  have h1 : Real.exp 3.141592 ≤ Real.exp π := Real.exp_le_exp.mpr (le_of_lt Real.pi_gt_d6)
  have h2 : Real.exp 3.141592 = Real.exp 3 * Real.exp 0.141592 := by
    rw [← Real.exp_add]; norm_num
  nlinarith [exp_three_lb, exp_small_lb, Real.exp_pos 3, Real.exp_pos 0.141592]

theorem cos_dpi_le : Real.cos (π * (49489 / 1800000)) ≤ 0.99627205 := by
  have hq4 : π * (49489 / 1800000) = 2 * (2 * (π * (49489 / 7200000))) := by ring
  set w := π * (49489 / 7200000) with hw
  have hw_pos : 0 < w := by rw [hw]; positivity
  have hw_lo : 3.141592 * (49489 / 7200000) ≤ w := by
    rw [hw]
    exact mul_le_mul_of_nonneg_right (le_of_lt Real.pi_gt_d6) (by norm_num)
  have hw_hi : w ≤ 3.141593 * (49489 / 7200000) := by
    rw [hw]
    exact mul_le_mul_of_nonneg_right (le_of_lt Real.pi_lt_d6) (by norm_num)
  have hw1 : |w| ≤ 1 := by rw [abs_of_pos hw_pos]; nlinarith
  have hsb := Real.sin_bound hw1
  have hcb := Real.cos_bound hw1
  rw [abs_of_pos hw_pos] at hsb hcb
  have h2 := (abs_sub_le_iff.mp hsb).2
  have h3 := (abs_sub_le_iff.mp hcb).2
  have hw2p : w ^ 2 ≤ (3.141593 * (49489 / 7200000)) ^ 2 :=
    pow_le_pow_left (le_of_lt hw_pos) hw_hi 2
  have hw3p : w ^ 3 ≤ (3.141593 * (49489 / 7200000)) ^ 3 :=
    pow_le_pow_left (le_of_lt hw_pos) hw_hi 3
  have hw4p : w ^ 4 ≤ (3.141593 * (49489 / 7200000)) ^ 4 :=
    pow_le_pow_left (le_of_lt hw_pos) hw_hi 4
  have hsinw : (0.02159195 : ℝ) ≤ Real.sin w := by nlinarith
  have hcosw : (0.99976684 : ℝ) ≤ Real.cos w := by nlinarith
  have hsinv : (0.04317383 : ℝ) ≤ Real.sin (2 * w) := by
    rw [Real.sin_two_mul]
    nlinarith
  have hid : Real.cos (2 * (2 * w)) = 1 - 2 * Real.sin (2 * w) ^ 2 := by
    rw [Real.cos_two_mul]
    have hpyth := Real.sin_sq_add_cos_sq (2 * w)
    linarith
  rw [hq4, hid]
  nlinarith [hsinv]

/-- Key inequality for claim C7: on the valid latitude range the argument
of the logarithm stays above `exp (-π)`, written with
`a = π * 850511/1800000`, the radian form of `85.0511` degrees. -/
theorem one_add_sin_div_cos_gt (θ : ℝ)
    (hlo : -(π * (850511 / 1800000)) ≤ θ) (hhi : θ ≤ π * (850511 / 1800000)) :
    Real.exp (-π) < (1 + Real.sin θ) / Real.cos θ := by
  have hpi := Real.pi_pos
  have ha2 : π * (850511 / 1800000) < π / 2 := by nlinarith
  have hcos : 0 < Real.cos θ :=
    Real.cos_pos_of_mem_Ioo ⟨by linarith, by linarith⟩
  have hmono := Real.strictMonoOn_sin.monotoneOn
    (Set.mem_Icc.mpr ⟨by linarith, by linarith⟩)
    (Set.mem_Icc.mpr ⟨by linarith, by linarith⟩) hlo
  have hsin_a : Real.sin (π * (850511 / 1800000)) ≤ 0.99627205 := by
    have hsplit : π * (850511 / 1800000) = π / 2 - π * (49489 / 1800000) := by
      have hc : (850511 : ℝ) / 1800000 = 1 / 2 - 49489 / 1800000 := by norm_num
      rw [hc]; ring
    rw [hsplit, Real.sin_pi_div_two_sub]
    exact cos_dpi_le
  have hs_lb : -(0.99627205 : ℝ) ≤ Real.sin θ := by
    rw [Real.sin_neg] at hmono
    linarith
  have hs_ub : Real.sin θ < 1 := by
    nlinarith [Real.sin_sq_add_cos_sq θ]
  have hq_pos : 0 < (1 + Real.sin θ) / Real.cos θ := div_pos (by linarith) hcos
  have hc2 : Real.cos θ ^ 2 = (1 - Real.sin θ) * (1 + Real.sin θ) := by
    nlinarith [Real.sin_sq_add_cos_sq θ]
  have hsq : ((1 + Real.sin θ) / Real.cos θ) ^ 2 = (1 + Real.sin θ) / (1 - Real.sin θ) := by
    rw [div_pow, hc2, sq, mul_comm (1 - Real.sin θ) (1 + Real.sin θ)]
    exact mul_div_mul_left _ _ (by linarith)
  have hmono2 : (1 - 0.99627205 : ℝ) / (1 + 0.99627205) ≤
      (1 + Real.sin θ) / (1 - Real.sin θ) := by
    rw [div_le_div_iff (by norm_num) (by linarith)]
    nlinarith
  have hexp2 : Real.exp (-π) ^ 2 < (1 - 0.99627205 : ℝ) / (1 + 0.99627205) := by
    have h5 : Real.exp (-π) = (Real.exp π)⁻¹ := Real.exp_neg π
    have h6 : (Real.exp π)⁻¹ ≤ (23.140675 : ℝ)⁻¹ :=
      inv_le_inv_of_le (by norm_num) exp_pi_lb
    have h7 : Real.exp (-π) ^ 2 ≤ ((23.140675 : ℝ)⁻¹) ^ 2 := by
      rw [h5]
      exact pow_le_pow_left (by positivity) h6 2
    have h8 : ((23.140675 : ℝ)⁻¹) ^ 2 < (1 - 0.99627205 : ℝ) / (1 + 0.99627205) := by norm_num
    linarith
  have hfin : Real.exp (-π) ^ 2 < ((1 + Real.sin θ) / Real.cos θ) ^ 2 := by
    rw [hsq]; linarith
  exact lt_of_pow_lt_pow_left 2 (le_of_lt hq_pos) hfin

/-- Claim C7 as stated is false at longitude exactly `180`:
`(180 + 180) / 360 * 2^0 = 1` exactly (the `f64` computation is exact
here), which truncates to tile x-index `1`, not `0`. -/
theorem claim7_counterexample :
    lonlat2tile 180 0 0 = (1, 0) ∧ ((1 : ℕ), (0 : ℕ)) ≠ ((0 : ℕ), (0 : ℕ)) := by
  constructor
  · have hx : (lonlat2tile 180 0 0).1 = 1 := by
      have key : (lonlat2tile 180 0 0).1 =
          satCastU32 (((180 : ℝ) + 180) / 360 * (2 : ℝ) ^ (0 : ℕ)) := rfl
      have hval : ((180 : ℝ) + 180) / 360 * (2 : ℝ) ^ (0 : ℕ) = 1 := by norm_num
      rw [key, hval]
      unfold satCastU32
      rw [Nat.floor_one]
      exact min_eq_left (by unfold u32size; omega)
    have hy : (lonlat2tile 180 0 0).2 = 0 := by
      have key : (lonlat2tile 180 0 0).2 =
          satCastU32 ((1 - Real.log (Real.tan ((0 : ℝ) * (π / 180)) +
            1 / Real.cos ((0 : ℝ) * (π / 180))) / π) / 2 * (2 : ℝ) ^ (0 : ℕ)) := rfl
      rw [key]
      apply satCastU32_eq_zero
      norm_num [Real.tan_zero, Real.cos_zero, Real.log_one]
    exact Prod.ext hx hy
  · simp

/-- Claim C7 amended: for every longitude in `[-180, 180 - 2^-44]` and
every latitude in `[-85.0511, 85.0511]`, `geographic-to-tile` at zoom `0`
returns `(0, 0)`.  The eastern bound excludes exactly the two `f64`
longitudes on which the code returns `(1, 0)` instead: `180` itself
(where `(180 + 180) / 360 = 1` exactly) and the `f64` predecessor of
`180`, `180 - 2^-45` (where `lon + 180f64` is the exact midpoint
`360 - 2^-45` — the ulp of `f64` at `360` is `2^-44` — and rounds
tie-to-even up to `360.0`, so the quotient is again exactly `1`).  For
every `f64` longitude at or below `180 - 2^-44` the `f64` computation is
robust: the rounded sum is at most the representable `360 - 2^-44`, and
`(360 - 2^-44) / 360` rounds to `1 - 2^-53 < 1`, so the exact-real proof
below reflects the code on the whole amended range
(`2^-44 = 1/17592186044416`). -/
theorem claim7_amended (lon lat : ℝ) (h1 : -180 ≤ lon)
    (h2 : lon ≤ 180 - 1 / 17592186044416)
    (h3 : -85.0511 ≤ lat) (h4 : lat ≤ 85.0511) :
    lonlat2tile lon lat 0 = (0, 0) := by
  have hpi := Real.pi_pos
  have hx : (lonlat2tile lon lat 0).1 = 0 := by
    have key : (lonlat2tile lon lat 0).1 =
        satCastU32 ((lon + 180) / 360 * (2 : ℝ) ^ (0 : ℕ)) := rfl
    rw [key]
    apply satCastU32_eq_zero
    rw [pow_zero, mul_one, div_lt_one (by norm_num : (0:ℝ) < 360)]
    have hsmall : (0 : ℝ) < 1 / 17592186044416 := by norm_num
    linarith
  have hy : (lonlat2tile lon lat 0).2 = 0 := by
    have key : (lonlat2tile lon lat 0).2 =
        satCastU32 ((1 - Real.log (Real.tan (lat * (π / 180)) +
          1 / Real.cos (lat * (π / 180))) / π) / 2 * (2 : ℝ) ^ (0 : ℕ)) := rfl
    rw [key]
    apply satCastU32_eq_zero
    rw [pow_zero, mul_one]
    have hlat : (85.0511 : ℝ) * (π / 180) = π * (850511 / 1800000) := by
      have hc : (85.0511 : ℝ) = 850511 / 10000 := by norm_num
      rw [hc]; ring
    have hθhi : lat * (π / 180) ≤ π * (850511 / 1800000) := by
      rw [← hlat]
      exact mul_le_mul_of_nonneg_right h4 (by positivity)
    have hθlo : -(π * (850511 / 1800000)) ≤ lat * (π / 180) := by
      rw [← hlat]
      have := mul_le_mul_of_nonneg_right h3 (by positivity : (0:ℝ) ≤ π / 180)
      nlinarith
    have hkey := one_add_sin_div_cos_gt (lat * (π / 180)) hθlo hθhi
    have harg : Real.tan (lat * (π / 180)) + 1 / Real.cos (lat * (π / 180)) =
        (1 + Real.sin (lat * (π / 180))) / Real.cos (lat * (π / 180)) := by
      rw [Real.tan_eq_sin_div_cos, div_add_div_same,
        add_comm (Real.sin (lat * (π / 180))) 1]
    rw [harg]
    have hq_pos : 0 < (1 + Real.sin (lat * (π / 180))) / Real.cos (lat * (π / 180)) :=
      lt_trans (Real.exp_pos _) hkey
    have hlog := (Real.lt_log_iff_exp_lt hq_pos).mpr hkey
    have hdiv : (-1 : ℝ) <
        Real.log ((1 + Real.sin (lat * (π / 180))) / Real.cos (lat * (π / 180))) / π := by
      rw [lt_div_iff hpi]
      linarith
    linarith
  exact Prod.ext hx hy

/-- Witness for the amended claim C7 at longitude 0, latitude 0. -/
theorem claim7_witness : lonlat2tile 0 0 0 = (0, 0) :=
  claim7_amended 0 0 (by norm_num) (by norm_num) (by norm_num) (by norm_num)

/-! ## The round trip in exact real arithmetic

Supporting material for claim C1 (which concerns the `f64` code): in the
exact-real idealization, `tile-to-geographic` followed by
`geographic-to-tile` at the same zoom is the identity on every `u32`
tile, with no restriction to the image of `geographic-to-tile`.  The
inverse Gudermannian round trip is exact:
`tan (arctan (sinh g)) + sec (arctan (sinh g)) = sinh g + cosh g = e^g`.
In `f64` the recomputed cell index lands within a few ulps of the exact
integer value and truncation may tip it to either side, which is why this
theorem does not settle the claim about the compiled code. -/

theorem satCastU32_natCast (n : ℕ) (h : n < u32size) : satCastU32 (n : ℝ) = n := by
  unfold satCastU32
  rw [Nat.floor_natCast]
  exact min_eq_left (by omega)

theorem roundtrip_exact_real (x y zoom : ℕ) (hx : x < u32size) (hy : y < u32size) :
    lonlat2tile (tile2lonlat x y zoom).1 (tile2lonlat x y zoom).2 zoom = (x, y) := by
  have hn : (0 : ℝ) < (2 : ℝ) ^ zoom := by positivity
  have hπ := Real.pi_pos
  have hx1 : ((tile2lonlat x y zoom).1 + 180) / 360 * (2 : ℝ) ^ zoom = (x : ℝ) := by
    show (((x : ℝ) / (2 : ℝ) ^ zoom * 360 - 180) + 180) / 360 * (2 : ℝ) ^ zoom = (x : ℝ)
    field_simp
    ring
  have hg : (tile2lonlat x y zoom).2 * (π / 180) =
      Real.arctan (Real.sinh (π * (1 - 2 * (y : ℝ) / (2 : ℝ) ^ zoom))) := by
    show Real.arctan (Real.sinh (π * (1 - 2 * (y : ℝ) / (2 : ℝ) ^ zoom))) * (180 / π) * (π / 180) =
      Real.arctan (Real.sinh (π * (1 - 2 * (y : ℝ) / (2 : ℝ) ^ zoom)))
    field_simp
  have hy1 : (1 - Real.log (Real.tan ((tile2lonlat x y zoom).2 * (π / 180)) +
      1 / Real.cos ((tile2lonlat x y zoom).2 * (π / 180))) / π) / 2 * (2 : ℝ) ^ zoom = (y : ℝ) := by
    rw [hg]
    rw [Real.tan_arctan, Real.cos_arctan, one_div_one_div]
    have hc : Real.sqrt (1 + Real.sinh (π * (1 - 2 * (y : ℝ) / (2 : ℝ) ^ zoom)) ^ 2) =
        Real.cosh (π * (1 - 2 * (y : ℝ) / (2 : ℝ) ^ zoom)) := by
      rw [← Real.cosh_sq']
      exact Real.sqrt_sq (le_of_lt (Real.cosh_pos _))
    rw [hc, Real.sinh_add_cosh, Real.log_exp]
    field_simp
    ring
  have k1 : (lonlat2tile (tile2lonlat x y zoom).1 (tile2lonlat x y zoom).2 zoom).1 =
      satCastU32 (((tile2lonlat x y zoom).1 + 180) / 360 * (2 : ℝ) ^ zoom) := rfl
  have k2 : (lonlat2tile (tile2lonlat x y zoom).1 (tile2lonlat x y zoom).2 zoom).2 =
      satCastU32 ((1 - Real.log (Real.tan ((tile2lonlat x y zoom).2 * (π / 180)) +
        1 / Real.cos ((tile2lonlat x y zoom).2 * (π / 180))) / π) / 2 * (2 : ℝ) ^ zoom) := rfl
  have e1 := k1.trans (by rw [hx1, satCastU32_natCast x hx])
  have e2 := k2.trans (by rw [hy1, satCastU32_natCast y hy])
  exact Prod.ext e1 e2
